import Mathlib

/-!
Verification of the Research-Agent browser client (src/static/js/app.js).

The development shallowly embeds the two algorithmic pieces of the client —
the markdown-subset formatter (formatContent) and the keyword highlighter
(applyHighlights / removeHighlights) — together with the debounced-search
and research-form state machines.  JS strings are modelled as List Char
(with String wrappers at the API surface); the JS regular expressions used
by the source are literal-string patterns, whose matching semantics
(case-insensitive matching, word boundaries, global non-overlapping
left-to-right replacement) are embedded directly as executable scans.
-/

namespace ResearchAgent

/-- JS word character for the regex class backslash-w: [A-Za-z0-9_]. -/
def isWordChar (c : Char) : Bool :=
  ('a' ≤ c && c ≤ 'z') || ('A' ≤ c && c ≤ 'Z') || ('0' ≤ c && c ≤ '9') || c == '_'

/-- ASCII lower-casing, the case folding relevant to the ASCII terms and the
case-insensitive regex flag i used by the source. -/
def lowerA (c : Char) : Char :=
  if 'A' ≤ c && c ≤ 'Z' then Char.ofNat (c.toNat + 32) else c

/-- Boolean prefix test on char lists (models String.prototype.startsWith). -/
def startsWithL : List Char → List Char → Bool
  | [], _ => true
  | _ :: _, [] => false
  | p :: ps, a :: l => p == a && startsWithL ps l

/-- Case-insensitive prefix test (ASCII folding), used by the i regex flag. -/
def ciPrefix : List Char → List Char → Bool
  | [], _ => true
  | _ :: _, [] => false
  | p :: ps, a :: l => lowerA p == lowerA a && ciPrefix ps l

/-- Word-ness of an optional neighbouring character; out-of-range counts as
a non-word position for the JS word-boundary assertion. -/
def optIsWord : Option Char → Bool
  | none => false
  | some c => isWordChar c

/-- Substring occurrence test on char lists. -/
def containsSub (p : List Char) : List Char → Bool
  | [] => startsWithL p []
  | a :: t => startsWithL p (a :: t) || containsSub p t

/-- Split a char list at each newline (models s.split of a newline, the line
structure used by the multiline-flag header regexes). -/
def splitNL : List Char → List (List Char)
  | [] => [[]]
  | a :: t =>
    if a = '\n' then [] :: splitNL t
    else
      match splitNL t with
      | [] => [[a]]
      | h :: r => (a :: h) :: r

/-- Split a char list at each blank-line separator, two consecutive
newlines, leftmost and non-overlapping (models html.split of a double
newline in formatContent). -/
def splitNN : List Char → List (List Char)
  | [] => [[]]
  | [a] => [[a]]
  | a :: b :: t =>
    if a = '\n' ∧ b = '\n' then [] :: splitNN t
    else
      match splitNN (b :: t) with
      | [] => [[a]]
      | h :: r => (a :: h) :: r

/-- Join blocks with a single newline (models paragraphs.join of a newline). -/
def joinNL : List (List Char) → List Char
  | [] => []
  | [l] => l
  | l :: l2 :: ls => l ++ '\n' :: joinNL (l2 :: ls)

/-- One line under the source regex rule replacing a level-2 header line by
an h2 element; the captured group requires at least one character after the
marker, so the line must have length at least 4. -/
def h2Line (l : List Char) : List Char :=
  if startsWithL ("## ".data) l ∧ 3 < l.length
  then "<h2>".data ++ l.drop 3 ++ "</h2>".data
  else l

/-- One line under the source regex rule replacing a level-3 header line by
an h3 element. -/
def h3Line (l : List Char) : List Char :=
  if startsWithL ("### ".data) l ∧ 4 < l.length
  then "<h3>".data ++ l.drop 4 ++ "</h3>".data
  else l

/-- A whole-string pass of a per-line header rule: the source regexes use
the multiline flag and replacements introduce no newline, so a pass acts
line by line. -/
def headerPass (rule : List Char → List Char) (l : List Char) : List Char :=
  joinNL ((splitNL l).map rule)

/-- Find the lazy close of a bold span: the input is the text after an
opening pair of asterisks; returns the shortest non-empty run of
non-newline characters followed by a closing pair of asterisks, together
with the rest of the text after that closing pair. -/
def findClose : List Char → Option (List Char × List Char)
  | [] => none
  | a :: t =>
    if a = '\n' then none
    else if t.head? = some '*' ∧ t.tail.head? = some '*' then some ([a], t.tail.tail)
    else
      match findClose t with
      | some (c, rest) => some (a :: c, rest)
      | none => none

/-- Fuel-indexed scan for the source bold rule (global lazy replacement of
double-asterisk spans by strong elements).  Each step consumes at least one
character of the text, so fuel equal to the text length suffices and the
result is then fuel-independent; the fuel only makes the recursion
structural. -/
def boldGo : Nat → List Char → List Char
  | 0, l => l
  | _ + 1, [] => []
  | f + 1, a :: t =>
    if a = '*' ∧ t.head? = some '*' then
      match findClose t.tail with
      | some (c, rest) => "<strong>".data ++ c ++ "</strong>".data ++ boldGo f rest
      | none => a :: boldGo f t
    else a :: boldGo f t

/-- The source bold rule over a whole char list. -/
def boldScan (l : List Char) : List Char := boldGo l.length l

/-- The paragraph-wrapping step of formatContent: a block already starting
with a header tag is passed through, every other block is wrapped in a p
element. -/
def wrapBlock (p : List Char) : List Char :=
  if startsWithL ("<h".data) p then p else "<p>".data ++ p ++ "</p>".data

/-- formatContent on char lists: header rules, then the bold rule, then
splitting on blank-line separators, wrapping non-header blocks and joining
with single newlines — the exact step order of the source. -/
def formatL (l : List Char) : List Char :=
  let s1 := headerPass h2Line l
  let s2 := headerPass h3Line s1
  let s3 := boldScan s2
  joinNL ((splitNN s3).map wrapBlock)

/-- formatContent of the source, on String. -/
def formatContent (content : String) : String := ⟨formatL content.data⟩

/-- Fuel-indexed scan for a global case-insensitive word-bounded literal
replacement: models text.replace with the regex built by applyHighlights
from an escaped term (after escapeRegex the pattern denotes the literal
term, bracketed by word-boundary assertions, with flags g and i).  The
matched text itself is re-emitted between pre and suf, modelling the
capture reference in the replacement string.  prev is the character just
before the current position (none at the start), used for the leading
word-boundary assertion.  Each step consumes at least one character, so
fuel equal to the text length suffices. -/
def scanGo (pre suf : List Char) (p0 : Char) (ps : List Char) :
    Nat → Option Char → List Char → List Char
  | 0, _, l => l
  | _ + 1, _, [] => []
  | f + 1, prev, a :: t =>
    let n := ps.length + 1
    let matched := (a :: t).take n
    let after := (a :: t).drop n
    if ciPrefix (p0 :: ps) (a :: t)
        && (optIsWord prev != isWordChar a)
        && (isWordChar (matched.getLastD a) != optIsWord after.head?)
    then pre ++ matched ++ suf ++ scanGo pre suf p0 ps f (some (matched.getLastD a)) after
    else a :: scanGo pre suf p0 ps f (some a) t

/-- One term replacement of applyHighlights: wraps every word-bounded
case-insensitive occurrence of the literal term in a span of the given
class, preserving the matched original casing.  Models
new RegExp of a word-bounded escaped term with flags g and i, applied by
String.prototype.replace.  The backend never supplies empty terms; an
empty term leaves the text unchanged here. -/
def replaceTermL (cls : List Char) (term : List Char) (text : List Char) : List Char :=
  match term with
  | [] => text
  | p0 :: ps =>
    scanGo ("<span class=\"".data ++ cls ++ "\">".data) ("</span>".data)
      p0 ps text.length none text

/-- One category loop of applyHighlights: terms applied in list order. -/
def applyCategory (cls : String) (terms : List String) (text : List Char) : List Char :=
  terms.foldl (fun acc term => replaceTermL cls.data term.data acc) text

/-- The keyword set fetched per report (fetchKeywords). -/
structure Keywords where
  keywords : List String
  entities : List String
  technical : List String
deriving DecidableEq

/-- The three category passes of applyHighlights in source order: entities,
then technical terms, then keywords. -/
def highlightAllL (k : Keywords) (text : List Char) : List Char :=
  applyCategory "keyword-highlight" k.keywords
    (applyCategory "technical-highlight" k.technical
      (applyCategory "entity-highlight" k.entities text))

/-- The full highlight transform on String. -/
def highlightAll (k : Keywords) (s : String) : String := ⟨highlightAllL k s.data⟩

/-- The highlighting-related state of the app object: the rendered content
and summary strings and the stored originals (undefined before the first
application). -/
structure AppState where
  content : String
  summary : String
  originalContent : Option String
  originalSummary : Option String
  keywords : Option Keywords

/-- JS falsiness of the stored original strings: undefined and the empty
string are both falsy, which is exactly the test the source performs with
logical negation on this.originalContent. -/
def jsFalsy : Option String → Bool
  | none => true
  | some s => s == ""

/-- applyHighlights of the source: returns early without keywords; stores
the current content and summary as originals when the stored original
content is falsy; then highlights the originals and installs the result.
(When the original content is truthy but the original summary is absent —
a state the source itself can never reach — the current summary stands in
for the missing field.) -/
def applyHighlights (s : AppState) : AppState :=
  match s.keywords with
  | none => s
  | some k =>
    let oc := if jsFalsy s.originalContent then s.content else s.originalContent.getD s.content
    let os := if jsFalsy s.originalContent then s.summary else s.originalSummary.getD s.summary
    { s with originalContent := some oc, originalSummary := some os,
             content := highlightAll k oc, summary := highlightAll k os }

/-- removeHighlights of the source: returns early when the stored original
content is falsy, otherwise restores both stored originals. -/
def removeHighlights (s : AppState) : AppState :=
  if jsFalsy s.originalContent then s
  else { s with content := s.originalContent.getD s.content,
                summary := s.originalSummary.getD s.summary }

/-- String.prototype.trim as used by the source (whitespace stripped from
both ends). -/
def jsTrim (s : String) : String :=
  ⟨((s.data.dropWhile Char.isWhitespace).reverse.dropWhile Char.isWhitespace).reverse⟩

/-- A request issued by the search machinery. -/
inductive SearchRequest where
  | search (q : String)
  | reportsReload
deriving DecidableEq

/-- Whether a request is an actual search query against the search API. -/
def isSearchReq : SearchRequest → Bool
  | .search _ => true
  | .reportsReload => false

/-- The search-related state of the app object: the trimmed query and
whether a debounce timer is pending (clearTimeout followed by setTimeout
leaves exactly one pending timer). -/
structure SearchBox where
  searchQuery : String
  timerPending : Bool
deriving DecidableEq

/-- handleSearch of the source: stores the trimmed input value, cancels any
pending debounce timer and schedules a new one; no request is issued. -/
def handleSearch (v : String) (_s : SearchBox) : SearchBox :=
  { searchQuery := jsTrim v, timerPending := true }

/-- The single request performed by performSearch: queries shorter than two
characters fall back to reloading the reports list, longer ones hit the
search endpoint with the stored query. -/
def performSearchReq (q : String) : SearchRequest :=
  if q.length < 2 then .reportsReload else .search q

/-- The debounce timer firing: only a pending timer runs performSearch, and
it issues exactly one request. -/
def fireTimer (s : SearchBox) : SearchBox × List SearchRequest :=
  if s.timerPending then
    ({ s with timerPending := false }, [performSearchReq s.searchQuery])
  else (s, [])

/-- A burst of keystrokes handled within the quiet window: each handleSearch
runs before the previous timer fires, so the timers of all but the last are
cancelled; no request is issued during the burst itself. -/
def runBurst (vs : List String) (s : SearchBox) : SearchBox :=
  vs.foldl (fun st v => handleSearch v st) s

/-- A burst followed by the quiet period: the surviving timer fires once. -/
def burstThenFire (vs : List String) (s : SearchBox) : SearchBox × List SearchRequest :=
  fireTimer (runBurst vs s)

/-- A report as rendered by the client. -/
structure Report where
  title : String
  summary : String
  content : String
  word_count : Nat
  sources : List String
deriving DecidableEq

/-- The observable outcome of the research fetch in startResearch: network
failure with an error message, a non-OK HTTP status, an application-level
failure with an optional error field, or success with a report. -/
inductive FetchOutcome where
  | netFail (msg : String)
  | httpNotOk
  | appFail (err : Option String)
  | ok (r : Report)

/-- The form-related state touched by startResearch. -/
structure ResearchUI where
  submitDisabled : Bool
  submitLabel : String
  progressActive : Bool
  topicValue : String
  currentReport : Option Report
  notices : List String

/-- startResearch of the source: an empty trimmed topic only shows an error;
otherwise the submit button is disabled and the progress shown, the fetch
outcome handled (errors are notified and the progress hidden; success
displays the report, clears the input and notifies), and the finally block
re-enables the submit button in every case. -/
def startResearch (ui : ResearchUI) (outcome : FetchOutcome) : ResearchUI :=
  if jsTrim ui.topicValue = "" then
    { ui with notices := ui.notices ++ ["Please enter a research topic"] }
  else
    let ui1 := { ui with submitDisabled := true, submitLabel := "Researching...",
                         progressActive := true }
    let ui2 :=
      match outcome with
      | .netFail msg =>
        { ui1 with notices := ui1.notices ++ [msg], progressActive := false }
      | .httpNotOk =>
        { ui1 with notices := ui1.notices ++ ["Research failed"], progressActive := false }
      | .appFail err =>
        { ui1 with notices := ui1.notices ++ [err.getD "Research failed"],
                   progressActive := false }
      | .ok r =>
        { ui1 with progressActive := false, currentReport := some r, topicValue := "",
                   notices := ui1.notices ++ ["Research completed successfully!"] }
    { ui2 with submitDisabled := false, submitLabel := "Start Research" }

/-- A state exercising the falsy-original-content edge of removeHighlights:
empty rendered content, a non-empty summary, and a keyword that occurs in
the summary. -/
def c1CounterState : AppState :=
  ⟨"", "AI lab", none, none, some ⟨[], ["AI"], []⟩⟩

/-- A concrete form state with a non-empty topic. -/
def c9UI : ResearchUI :=
  ⟨false, "Start Research", false, "Quantum Computing", none, []⟩

/-! ### Helper lemmas -/

theorem splitNL_of_not_mem (l : List Char) (h : '\n' ∉ l) : splitNL l = [l] := by
  induction l with
  | nil => rfl
  | cons a t ih =>
    have ha : ¬(a = '\n') := fun e => h (List.mem_cons.mpr (Or.inl e.symm))
    have ht : '\n' ∉ t := fun m => h (List.mem_cons_of_mem a m)
    simp only [splitNL]
    rw [if_neg ha, ih ht]

theorem splitNN_of_not_mem (l : List Char) (h : '\n' ∉ l) : splitNN l = [l] := by
  induction l with
  | nil => rfl
  | cons a t ih =>
    cases t with
    | nil => rfl
    | cons b u =>
      have ha : ¬(a = '\n' ∧ b = '\n') :=
        fun hc => h (List.mem_cons.mpr (Or.inl hc.1.symm))
      have ht : '\n' ∉ b :: u := fun m => h (List.mem_cons_of_mem a m)
      simp only [splitNN]
      rw [if_neg ha, ih ht]

theorem boldGo_of_no_star (f : Nat) (l : List Char) (h : '*' ∉ l) : boldGo f l = l := by
  induction f generalizing l with
  | zero => rfl
  | succ f ih =>
    cases l with
    | nil => rfl
    | cons a t =>
      have ha : ¬(a = '*' ∧ t.head? = some '*') :=
        fun hc => h (List.mem_cons.mpr (Or.inl hc.1.symm))
      have ht : '*' ∉ t := fun m => h (List.mem_cons_of_mem a m)
      simp only [boldGo]
      rw [if_neg ha, ih t ht]

theorem headerPass_of_no_newline (rule : List Char → List Char) (l : List Char)
    (h : '\n' ∉ l) : headerPass rule l = rule l := by
  unfold headerPass
  rw [splitNL_of_not_mem l h]
  rfl

theorem formatL_plain (x : List Char) (hnl : '\n' ∉ x) (hstar : '*' ∉ x)
    (hh2 : h2Line x = x) (hh3 : h3Line x = x)
    (hpre : startsWithL ("<h".data) x = false) :
    formatL x = "<p>".data ++ x ++ "</p>".data := by
  have hb : boldScan x = x := boldGo_of_no_star x.length x hstar
  show joinNL (List.map wrapBlock
      (splitNN (boldScan (headerPass h3Line (headerPass h2Line x)))))
    = "<p>".data ++ x ++ "</p>".data
  rw [headerPass_of_no_newline _ _ hnl, hh2, headerPass_of_no_newline _ _ hnl, hh3,
    hb, splitNN_of_not_mem x hnl]
  show wrapBlock x = "<p>".data ++ x ++ "</p>".data
  unfold wrapBlock
  rw [if_neg]
  intro hc
  rw [hpre] at hc
  exact absurd hc (by decide)

theorem runBurst_nonempty (vs : List String) (h : vs ≠ []) (s : SearchBox) :
    runBurst vs s = { searchQuery := jsTrim (vs.getLast h), timerPending := true } := by
  induction vs generalizing s with
  | nil => exact absurd rfl h
  | cons v t ih =>
    cases t with
    | nil => rfl
    | cons w u =>
      have hne : w :: u ≠ [] := List.cons_ne_nil w u
      have step : runBurst (v :: w :: u) s = runBurst (w :: u) (handleSearch v s) := rfl
      have hlast : (v :: w :: u).getLast h = (w :: u).getLast hne := rfl
      rw [step, hlast]
      exact ih hne (handleSearch v s)

/-! ### Claim theorems -/

/-- Claim C1 (counterexample): the round-trip is not exact for every text —
with empty rendered content (falsy in JS) and a non-empty summary,
removeHighlights returns early and the summary stays highlighted instead
of being restored byte-identically. -/
theorem c1_roundtrip_counterexample :
    (removeHighlights (applyHighlights c1CounterState)).summary ≠ c1CounterState.summary := by
  decide

/-- Claim C1 (amended): for every state in which the original strings have
not yet been captured and whose content text is non-empty, applying the
keyword highlight transform and then disabling highlighting restores the
byte-identical original content and summary captured before the
application. -/
theorem c1_roundtrip_amended (s : AppState) (h1 : jsFalsy s.originalContent = true)
    (h2 : s.content ≠ "") :
    (removeHighlights (applyHighlights s)).content = s.content ∧
    (removeHighlights (applyHighlights s)).summary = s.summary := by
  cases hk : s.keywords with
  | none =>
    simp only [applyHighlights, hk, removeHighlights]
    rw [if_pos h1]
    exact ⟨rfl, rfl⟩
  | some k =>
    simp only [applyHighlights, hk]
    rw [if_pos h1, if_pos h1]
    simp only [removeHighlights, jsFalsy]
    rw [if_neg]
    · exact ⟨rfl, rfl⟩
    · simp only [beq_iff_eq]
      intro hc
      exact h2 hc

theorem c1_roundtrip_witness :
    (removeHighlights (applyHighlights
        ⟨"AI wins", "AI lab", none, none, some ⟨[], ["AI"], []⟩⟩)).content = "AI wins" :=
  (c1_roundtrip_amended ⟨"AI wins", "AI lab", none, none, some ⟨[], ["AI"], []⟩⟩
    rfl (by decide)).1

/-- Claim C2 (counterexample): the text contains the occurrence C++ yet the
highlighter leaves the text unchanged — the trailing word-boundary
assertion fails after the final plus when a non-word character follows, so
not every occurrence of the term is wrapped. -/
theorem c2_escape_counterexample :
    highlightAll ⟨[], ["C++"], []⟩ "C++ rocks" = "C++ rocks" ∧
    containsSub ("C++".data) ("C++ rocks".data) = true := by
  decide

/-- Claim C2 (amended): after escaping, the term C++ is matched literally,
but an occurrence is wrapped only when both word-boundary assertions hold:
preceded by start of text or a non-word character and followed by a word
character.  Occurrences followed by a non-word character or end of text,
and occurrences preceded by a word character, are not wrapped. -/
theorem c2_escape_amended :
    highlightAll ⟨[], ["C++"], []⟩ "C++11 vs aC++11 vs C++ end"
      = "<span class=\"entity-highlight\">C++</span>11 vs aC++11 vs C++ end" := by
  decide

/-- Claim C3: term matching is case-insensitive and word-bounded — the term
AI matches the standalone occurrences AI and ai (the original casing is
preserved) but not the AI inside fAIled, also when the occurrence ends the
text. -/
theorem c3_word_boundary :
    highlightAll ⟨[], ["AI"], []⟩ "AI helps and ai, not fAIled"
      = "<span class=\"entity-highlight\">AI</span> helps and <span class=\"entity-highlight\">ai</span>, not fAIled" ∧
    highlightAll ⟨[], ["AI"], []⟩ "use AI"
      = "use <span class=\"entity-highlight\">AI</span>" := by
  decide

/-- Claim C4: in the paragraph-wrapping step of formatContent, every block
beginning with an h2 header tag is passed through unchanged and never
wrapped in a p element. -/
theorem c4_header_pass_through (b : List Char) (h : startsWithL ("<h2>".data) b = true) :
    wrapBlock b = b := by
  cases b with
  | nil => exact absurd h (by decide)
  | cons a t =>
    cases t with
    | nil =>
      simp only [startsWithL, Bool.and_eq_true] at h
      exact absurd h.2 (by simp [startsWithL])
    | cons a2 t2 =>
      have e : "<h2>".data = '<' :: 'h' :: '2' :: '>' :: [] := rfl
      rw [e] at h
      simp only [startsWithL, Bool.and_eq_true, beq_iff_eq] at h
      obtain ⟨ha, ha2, _⟩ := h
      subst ha
      subst ha2
      simp [wrapBlock, startsWithL]

theorem c4_header_pass_through_witness :
    wrapBlock ("<h2>A</h2>".data) = "<h2>A</h2>".data :=
  c4_header_pass_through ("<h2>A</h2>".data) (by decide)

/-- Claim C5: formatContent on a level-2 header line, a blank-line
separator and a plain line returns the h2 element and the wrapped
paragraph joined by a single newline. -/
theorem c5_format_example :
    formatContent "## A\n\nplain" = "<h2>A</h2>\n<p>plain</p>" := by
  decide

/-- Claim C6: formatContent of empty input is a single empty paragraph, a
whitespace-only input is wrapped with its whitespace preserved, and in
general every non-empty whitespace-only block is wrapped in a p element
without trimming. -/
theorem c6_format_edge_cases :
    formatContent "" = "<p></p>" ∧
    formatContent " \t " = "<p> \t </p>" ∧
    ∀ b : List Char, b ≠ [] → (∀ c ∈ b, c = ' ' ∨ c = '\t' ∨ c = '\n') →
      wrapBlock b = "<p>".data ++ b ++ "</p>".data := by
  refine ⟨by decide, by decide, ?_⟩
  intro b hne hws
  cases b with
  | nil => exact absurd rfl hne
  | cons c t =>
    have hc := hws c (List.mem_cons_self c t)
    have hsw : startsWithL ("<h".data) (c :: t) = false := by
      rcases hc with h | h | h <;> subst h <;> rfl
    unfold wrapBlock
    rw [if_neg]
    intro hcond
    rw [hsw] at hcond
    exact absurd hcond (by decide)

theorem c6_format_edge_cases_witness :
    wrapBlock [' '] = "<p>".data ++ [' '] ++ "</p>".data :=
  c6_format_edge_cases.2.2 [' '] (by decide) (by decide)

/-- Claim C7: the highlighter applies the categories in the fixed order
entities, then technical, then keywords (first conjunct, and the second
conjunct shows the later keyword pass re-wrapping inside the earlier
entity span); within a category terms apply in list order (the two list
orders of the same terms give different results); each replacement
preserves the matched original casing; and the transform is a function of
the text and term set, hence deterministic. -/
theorem c7_highlight_order :
    (∀ (k : Keywords) (t : String),
      highlightAll k t = ⟨applyCategory "keyword-highlight" k.keywords
        (applyCategory "technical-highlight" k.technical
          (applyCategory "entity-highlight" k.entities t.data))⟩) ∧
    highlightAll ⟨["net"], ["net"], []⟩ "net"
      = "<span class=\"entity-highlight\"><span class=\"keyword-highlight\">net</span></span>" ∧
    applyCategory "entity-highlight" ["big apple", "apple"] ("big apple".data)
      = "<span class=\"entity-highlight\">big <span class=\"entity-highlight\">apple</span></span>".data ∧
    applyCategory "entity-highlight" ["apple", "big apple"] ("big apple".data)
      = "big <span class=\"entity-highlight\">apple</span>".data ∧
    highlightAll ⟨[], ["ai"], []⟩ "AI" = "<span class=\"entity-highlight\">AI</span>" :=
  ⟨fun _ _ => rfl, by decide, by decide, by decide, by decide⟩

/-- Claim C8 (counterexample): a burst consisting of the single keystroke a
is followed by one timer fire that performs no search query at all — the
trimmed query is shorter than two characters, so performSearch falls back
to reloading the reports list instead of querying the typed value. -/
theorem c8_debounce_counterexample :
    (burstThenFire ["a"] ⟨"", false⟩).2 = [SearchRequest.reportsReload] ∧
    ((burstThenFire ["a"] ⟨"", false⟩).2.filter isSearchReq).length = 0 := by
  decide

/-- Claim C8 (amended): for every burst of keystrokes within the quiet
window, exactly one performSearch runs, issuing exactly one request
determined by the trimmed last typed value — a search for that value when
it has at least two characters, otherwise a reports-list reload — and a
further timer fire issues nothing. -/
theorem c8_debounce_amended (vs : List String) (s : SearchBox) (h : vs ≠ []) :
    (burstThenFire vs s).2 = [performSearchReq (jsTrim (vs.getLast h))] ∧
    (fireTimer (burstThenFire vs s).1).2 = [] := by
  unfold burstThenFire
  rw [runBurst_nonempty vs h s]
  exact ⟨rfl, rfl⟩

theorem c8_debounce_witness :
    (burstThenFire ["q", "quantum"] ⟨"", false⟩).2 = [SearchRequest.search "quantum"] :=
  ((c8_debounce_amended ["q", "quantum"] ⟨"", false⟩ (by decide)).1).trans (by decide)

/-- Claim C9: after every research attempt that actually submits a request
(a non-empty trimmed topic), the submit button is re-enabled by the
finally block regardless of the fetch outcome. -/
theorem c9_form_reenabled (ui : ResearchUI) (outcome : FetchOutcome)
    (h : ¬(jsTrim ui.topicValue = "")) :
    (startResearch ui outcome).submitDisabled = false := by
  unfold startResearch
  rw [if_neg h]

theorem c9_form_reenabled_witness :
    (startResearch c9UI FetchOutcome.httpNotOk).submitDisabled = false :=
  c9_form_reenabled c9UI FetchOutcome.httpNotOk (by decide)

/-- Claim C10 (counterexample): the block consisting of the header line is
non-empty, contains no blank-line separator and does not begin with an <h
tag, yet a second application of formatContent does not wrap the result
again — the first application turns it into a header block, which the
wrapping step passes through. -/
theorem c10_not_idempotent_counterexample :
    formatContent "## A" = "<h2>A</h2>" ∧
    formatContent (formatContent "## A") = formatContent "## A" := by
  decide

/-- Claim C10 (amended): for every non-empty single-line block that the
header rules and the bold rule leave unchanged (no newline, no asterisk,
no header-line shape) and that does not begin with an <h tag, a second
application wraps the result again, so format of format of the block
differs from format of the block. -/
theorem c10_not_idempotent_amended (x : List Char) (_hne : x ≠ []) (hnl : '\n' ∉ x)
    (hstar : '*' ∉ x) (hh2 : h2Line x = x) (hh3 : h3Line x = x)
    (hpre : startsWithL ("<h".data) x = false) :
    formatL x = "<p>".data ++ x ++ "</p>".data ∧
    formatL (formatL x) = "<p>".data ++ ("<p>".data ++ x ++ "</p>".data) ++ "</p>".data ∧
    formatL (formatL x) ≠ formatL x := by
  have h1 := formatL_plain x hnl hstar hh2 hh3 hpre
  have hnlw : '\n' ∉ "<p>".data ++ x ++ "</p>".data := by
    intro hm
    rcases List.mem_append.mp hm with hm1 | hm2
    · rcases List.mem_append.mp hm1 with hma | hmb
      · exact absurd hma (by decide)
      · exact hnl hmb
    · exact absurd hm2 (by decide)
  have hsw : '*' ∉ "<p>".data ++ x ++ "</p>".data := by
    intro hm
    rcases List.mem_append.mp hm with hm1 | hm2
    · rcases List.mem_append.mp hm1 with hma | hmb
      · exact absurd hma (by decide)
      · exact hstar hmb
    · exact absurd hm2 (by decide)
  have hh2w : h2Line ("<p>".data ++ x ++ "</p>".data) = "<p>".data ++ x ++ "</p>".data := by
    unfold h2Line
    rw [if_neg]
    intro hcond
    have hc : startsWithL ("## ".data) ("<p>".data ++ x ++ "</p>".data) = true := hcond.1
    have h0 : startsWithL ("## ".data) ("<p>".data ++ x ++ "</p>".data) = false := rfl
    rw [h0] at hc
    exact absurd hc (by decide)
  have hh3w : h3Line ("<p>".data ++ x ++ "</p>".data) = "<p>".data ++ x ++ "</p>".data := by
    unfold h3Line
    rw [if_neg]
    intro hcond
    have hc : startsWithL ("### ".data) ("<p>".data ++ x ++ "</p>".data) = true := hcond.1
    have h0 : startsWithL ("### ".data) ("<p>".data ++ x ++ "</p>".data) = false := rfl
    rw [h0] at hc
    exact absurd hc (by decide)
  have hpw : startsWithL ("<h".data) ("<p>".data ++ x ++ "</p>".data) = false := rfl
  have h2 := formatL_plain ("<p>".data ++ x ++ "</p>".data) hnlw hsw hh2w hh3w hpw
  refine ⟨h1, ?_, ?_⟩
  · rw [h1, h2]
  · rw [h1, h2]
    intro heq
    have hlen := congrArg List.length heq
    have e1 : ("<p>".data).length = 3 := rfl
    have e2 : ("</p>".data).length = 4 := rfl
    simp only [List.length_append, e1, e2] at hlen
    omega

theorem c10_not_idempotent_witness :
    formatL ("plain".data) = "<p>plain</p>".data :=
  (c10_not_idempotent_amended ("plain".data) (by decide) (by decide) (by decide)
    (by decide) (by decide) (by decide)).1

end ResearchAgent
